import Mathlib

/-! Verification development for the foobot chat-bot repository.

The definitions below are a shallow embedding of the Rust sources:
  * `src/command_handler.rs` — `Permissions`, `CommandHandlerError`, the
    built-in command actions and `CommandHandler::run_command`, in particular
    the script interpreter of the `Action::Custom` arm;
  * `src/bot.rs` — `Bot::check_command_permissions`, `Bot::parse_command`,
    the trigger/argument split of `Bot::handle_privmsg`, and the outbound
    queue consumer `Bot::listen_msg`;
  * `src/db.rs` — `DBConnError` and the command store operations.

Effectful collaborators are made explicit: the action registry is a function
parameter, the command store is explicit state, and the chat transport is a
record of send functions. A Rust `panic!`/`.expect` is modelled as an `Option`
/dedicated result component, never as a Lean error.
-/

deriving instance DecidableEq for Except

namespace Foobot

/-- Rust `Permissions` from `command_handler.rs`. -/
inductive Permissions where
  | All
  | Subs
  | Mods
  | Super
deriving DecidableEq, Repr

/-- Rust `DBConnError` from `db.rs` (the `mysql::Error` payload of `UnknownError`
is irrelevant to control flow and dropped). -/
inductive DBConnError where
  | AlreadyExists
  | NotFound
  | UnknownError
deriving DecidableEq, Repr

/-- Rust `CommandHandlerError` from `command_handler.rs` (the io/reqwest payloads
are irrelevant to control flow and dropped). -/
inductive CommandHandlerError where
  | DBError : DBConnError → CommandHandlerError
  | ExecutionError : String → CommandHandlerError
  | WriterError
  | ReqwestError
  | InvalidPermissions
deriving DecidableEq, Repr

/-- Rust `Permissions::from_string` from `command_handler.rs`. -/
def Permissions.from_string (s : String) : Except CommandHandlerError Permissions :=
  if s = "all" then .ok .All
  else if s = "subs" then .ok .Subs
  else if s = "mods" then .ok .Mods
  else if s = "super" then .ok .Super
  else .error .InvalidPermissions

/-- A chat badge; `check_command_permissions` only reads its `name`. -/
structure Badge where
  name : String
deriving DecidableEq, Repr

/-- The fields of `twitch_irc::message::PrivmsgMessage` that the bot reads
for permission checks: `pm.sender.login` (flattened) and `pm.badges`. -/
structure PrivmsgMessage where
  sender_login : String
  badges : List Badge
deriving DecidableEq, Repr

/-- Rust `Bot::check_command_permissions` from `bot.rs`.  The Rust code uses the
non-short-circuiting `|` on booleans, which agrees with `||` in value. -/
def Bot.check_command_permissions (pm : PrivmsgMessage) (permissions : Permissions) : Bool :=
  match permissions with
  | .All => true
  | .Super => pm.sender_login == "boring_nick"
  | .Mods =>
      pm.badges.any (fun badge => badge.name == "broadcaster")
        || pm.badges.any (fun badge => badge.name == "moderator")
  | .Subs =>
      pm.badges.any (fun badge => badge.name == "broadcaster")
        || pm.badges.any (fun badge => badge.name == "moderator")
        || pm.badges.any (fun badge => badge.name == "subscriber")

/-- One registry call of the script interpreter: the resolved action name and
its resolved argument list, as handed to `ActionHandler::run`. -/
abbrev Invocation := String × List String

/-- The action registry (`ActionHandler::run`) seen from the interpreter:
given the action name and resolved arguments it yields an optional textual
result or a `CommandHandlerError`. -/
abbrev Reg := String → List String → Except CommandHandlerError (Option String)

/-- Scanner state of the `Action::Custom` loop in
`CommandHandler::run_command`: either at the top level, inside a block (with
the accumulated action name and argument list), or inside a block just after
a `$` (the Rust code reads one extra character there). -/
inductive Mode where
  | top
  | inBlock (action : String) (actionArgs : List String)
  | afterDollar (action : String) (actionArgs : List String)
deriving DecidableEq, Repr

/-- Returns `true` when the scanner state is inside an action block. -/
def Mode.flag : Mode → Bool
  | .top => false
  | _ => true

/-- The `Action::Custom` interpreter loop of `CommandHandler::run_command`
(`command_handler.rs` lines 206-276), instrumented: the result's first
component is the exact sequence of registry invocations performed, the second
is the returned `Result<Option<String>, CommandHandlerError>`.

Faithful points: ordinary top-level characters are pushed onto the response;
`\x7b` opens a block; inside a block `\x7d` invokes the registry with the
accumulated name/arguments (appending its optional result to the response),
`$` reads one more character (digit → positional argument lookup with
"missing argument" on overflow, `$` → all arguments joined by spaces, end of
input → "missing variable", anything else → "invalid variable"), a space is
skipped, and any other character (including `\x7b`) is pushed onto the action
name; end of input inside a block is the "closing \x7d not found" error; at
end of input the response is returned, `none` when empty. -/
def interpGo (reg : Reg) (args : List String) :
    Mode → String → List Char → List Invocation × Except CommandHandlerError (Option String)
  | .top, response, [] =>
      ([], .ok (if response.isEmpty then none else some response))
  | .top, response, c :: cs =>
      if c = '\x7b' then interpGo reg args (.inBlock "" []) response cs
      else interpGo reg args .top (response.push c) cs
  | .inBlock _ _, _, [] =>
      ([], .error (.ExecutionError "closing \x7d not found"))
  | .inBlock action actionArgs, response, c :: cs =>
      if c = '\x7d' then
        match reg action actionArgs with
        | .ok actionResult =>
            let rest := interpGo reg args .top (response ++ actionResult.getD "") cs
            ((action, actionArgs) :: rest.1, rest.2)
        | .error e => ([(action, actionArgs)], .error e)
      else if c = '$' then
        interpGo reg args (.afterDollar action actionArgs) response cs
      else if c = ' ' then
        interpGo reg args (.inBlock action actionArgs) response cs
      else
        interpGo reg args (.inBlock (action.push c) actionArgs) response cs
  | .afterDollar _ _, _, [] =>
      ([], .error (.ExecutionError "missing variable"))
  | .afterDollar action actionArgs, response, c :: cs =>
      if c.isDigit then
        match args[c.toNat - '0'.toNat]? with
        | some arg => interpGo reg args (.inBlock action (actionArgs ++ [arg])) response cs
        | none => ([], .error (.ExecutionError "missing argument"))
      else if c = '$' then
        interpGo reg args (.inBlock action (actionArgs ++ [String.intercalate " " args])) response cs
      else
        ([], .error (.ExecutionError "invalid variable"))

/-- Run the `Action::Custom` interpreter on a whole body, starting at the top
level with an empty response buffer, as `run_command` does. -/
def runCustom (reg : Reg) (body : String) (args : List String) :
    List Invocation × Except CommandHandlerError (Option String) :=
  interpGo reg args .top "" body.data

/-- Pure block scanner: the same grammar walk as `interpGo` but with the
registry calls stripped out.  `some blocks` means the body parses without a
script error and its action blocks resolve (with the given caller arguments)
to `blocks`, in source order; `none` means the walk hits a script error. -/
def scanGo (args : List String) : Mode → List Char → Option (List Invocation)
  | .top, [] => some []
  | .top, c :: cs =>
      if c = '\x7b' then scanGo args (.inBlock "" []) cs
      else scanGo args .top cs
  | .inBlock _ _, [] => none
  | .inBlock action actionArgs, c :: cs =>
      if c = '\x7d' then
        (scanGo args .top cs).map (fun blocks => (action, actionArgs) :: blocks)
      else if c = '$' then
        scanGo args (.afterDollar action actionArgs) cs
      else if c = ' ' then
        scanGo args (.inBlock action actionArgs) cs
      else
        scanGo args (.inBlock (action.push c) actionArgs) cs
  | .afterDollar _ _, [] => none
  | .afterDollar action actionArgs, c :: cs =>
      if c.isDigit then
        match args[c.toNat - '0'.toNat]? with
        | some arg => scanGo args (.inBlock action (actionArgs ++ [arg])) cs
        | none => none
      else if c = '$' then
        scanGo args (.inBlock action (actionArgs ++ [String.intercalate " " args])) cs
      else
        none

/-- The action blocks of a well-formed body, resolved against the caller
arguments, in source order; `none` when the body is malformed. -/
def scanBlocks (body : String) (args : List String) : Option (List Invocation) :=
  scanGo args .top body.data

/-- Flat-grammar block matching, with no `$` special-casing: walk the
characters keeping an in-block flag — at the top level a `\x7b` enters a
block, inside a block the nearest `\x7d` closes it — and report `true` when
the input ends inside a block, i.e. some `\x7b` has no matching `\x7d`. -/
def unterminatedFrom : Bool → List Char → Bool
  | inBlock, [] => inBlock
  | false, c :: cs => unterminatedFrom (c == '\x7b') cs
  | true, c :: cs => unterminatedFrom (c != '\x7d') cs

/-- A body contains an action-opening `\x7b` with no matching `\x7d`. -/
def hasUnterminatedBlock (body : String) : Bool :=
  unterminatedFrom false body.data

/-- A trivial registry for concrete runs: every action succeeds with no
textual result. -/
def regNone : Reg := fun _ _ => .ok none

/-- Rust `Action` from `action_handler.rs`. -/
inductive Action where
  | Custom : String → Action
  | AddCmd
  | DelCmd
  | ShowCmd
  | ListCmd
  | Join
  | Part
deriving DecidableEq, Repr

/-- One row of the `commands` table: `(name, action, channel, permissions)`,
the column order of the `INSERT` in `DBConn::add_command`. -/
structure StoredCommand where
  name : String
  action : String
  channel : String
  permissions : String
deriving DecidableEq, Repr

/-- The command store as explicit state: the rows of the `commands` table. -/
abbrev Store := List StoredCommand

/-- A `(name, channel)` row is present in the store. -/
def commandExists (store : Store) (trigger channel : String) : Bool :=
  store.any (fun c => c.name == trigger && c.channel == channel)

/-- Rust `DBConn::add_command` from `db.rs` over the explicit store.  Modelled
from the spec: the `commands` table itself is external (MySQL); per the
data-model section custom commands are keyed by `(trigger, channel)`, unique,
so a duplicate insert raises MySQL error 1062, which `db.rs` maps to
`DBConnError::AlreadyExists`; otherwise the row
`(name, action, channel, permissions)` is inserted. -/
def add_command (store : Store) (trigger action channel permissions : String) :
    Store × Except DBConnError Unit :=
  if commandExists store trigger channel then
    (store, .error .AlreadyExists)
  else
    (⟨trigger, action, channel, permissions⟩ :: store, .ok ())

/-- Rust `DBConn::del_command` from `db.rs` over the explicit store: the `DELETE`
removes the `(name, channel)` rows, and zero affected rows is `NotFound`. -/
def del_command (store : Store) (trigger channel : String) :
    Store × Except DBConnError Unit :=
  if commandExists store trigger channel then
    (store.filter (fun c => !(c.name == trigger && c.channel == channel)), .ok ())
  else
    (store, .error .NotFound)

/-- Rust `DBConn::get_command` from `db.rs` over the explicit store, reduced to
the stored action text of the first matching row (the Rust function wraps it
as `Action::Custom`). -/
def db_get_command (store : Store) (trigger channel : String) : Option StoredCommand :=
  store.find? (fun c => c.name == trigger && c.channel == channel)

/-- Rust `DBConn::get_commands` from `db.rs`: the names stored for a channel. -/
def db_get_commands (store : Store) (channel : String) : List String :=
  (store.filter (fun c => c.channel == channel)).map (fun c => c.name)

/-- Rust `CommandHandler::run_command` from `command_handler.rs`, with the command
store as explicit state and the action registry as a parameter.  Each arm
mirrors the Rust `match` on `cmd.action`; the `Action::Custom` arm is
`runCustom`, which additionally reports its registry invocation trace (the
trace is dropped here).  `ListCmd` renders the command names with `toString`
in place of Rust's `{:?}` vector formatting. -/
def run_command (reg : Reg) (store : Store) (action : Action) (args : List String)
    (channel : String) : Store × Except CommandHandlerError (Option String) :=
  match action with
  | .AddCmd =>
      match args with
      | trigger :: rest =>
          let actionText := String.intercalate " " rest
          match add_command store trigger actionText channel "all" with
          | (store2, .ok _) =>
              (store2, .ok (some ("successfully added command \"" ++ trigger ++ "\"")))
          | (store2, .error .AlreadyExists) =>
              (store2, .ok (some ("command \"" ++ trigger ++ "\" already exists")))
          | (store2, .error e) => (store2, .error (.DBError e))
      | [] => (store, .ok (some "missing arguments"))
  | .DelCmd =>
      match args with
      | trigger :: _ =>
          match del_command store trigger channel with
          | (store2, .ok _) =>
              (store2, .ok (some ("successfully removed command \"" ++ trigger ++ "\"")))
          | (store2, .error .NotFound) =>
              (store2, .ok (some ("command \"" ++ trigger ++ "\" not found")))
          | (store2, .error e) => (store2, .error (.DBError e))
      | [] => (store, .ok (some "missing command"))
  | .ShowCmd =>
      match args with
      | trigger :: _ =>
          match db_get_command store trigger channel with
          | some cmd => (store, .ok (some cmd.action))
          | none => (store, .ok (some "no such command"))
      | [] => (store, .ok (some "command not specified"))
  | .ListCmd =>
      (store, .ok (some ("Custom commands: " ++ toString (db_get_commands store channel))))
  | .Join => (store, .ok none)
  | .Part => (store, .ok none)
  | .Custom cmd => (store, (runCustom reg cmd args).2)

/-- Rust `Bot::parse_command` from `bot.rs`, for a channel whose configured
trigger string `pfx` has already been looked up (the lookup `.expect`s it):
a line starting with `pfx` yields the remainder, any other line is `none`
(ignored).  `starts_with`/`strip_prefix` are embedded on the char lists. -/
def parse_command (pfx msg : String) : Option String :=
  if pfx.data.isPrefixOf msg.data then
    some (String.mk (msg.data.drop pfx.data.length))
  else
    none

/-- Rust `str::split_whitespace`: split on whitespace, discarding empty
tokens.  `acc` holds the current token's characters in reverse. -/
def splitWhitespaceGo : List Char → List Char → List String
  | [], acc => if acc.isEmpty then [] else [String.mk acc.reverse]
  | c :: cs, acc =>
      if c.isWhitespace then
        if acc.isEmpty then splitWhitespaceGo cs []
        else String.mk acc.reverse :: splitWhitespaceGo cs []
      else
        splitWhitespaceGo cs (c :: acc)

/-- Rust `str::split_whitespace`, collected into a list as in
`Bot::handle_privmsg`. -/
def rust_split_whitespace (s : String) : List String :=
  splitWhitespaceGo s.data []

/-- The trigger/argument split of `Bot::handle_privmsg`:
`split.split_first().unwrap()`.  `none` models the `unwrap` panicking on an
empty token list. -/
def splitTriggerArgs (cmd : String) : Option (String × List String) :=
  match rust_split_whitespace cmd with
  | trigger :: arguments => some (trigger, arguments)
  | [] => none

/-- The routing head of `Bot::handle_privmsg` for one line: `none` when the
line lacks the channel trigger string and is ignored; `some none` when the
line is accepted but the trigger/argument split panics; `some (some p)` when
a trigger and arguments are extracted. -/
def routeMessage (pfx msg : String) : Option (Option (String × List String)) :=
  (parse_command pfx msg).map splitTriggerArgs

/-- Rust `SendMsg` from `bot.rs` (tuple payloads as in the Rust enum). -/
inductive SendMsg where
  | Reply : String × PrivmsgMessage → SendMsg
  | Say : String × String → SendMsg
  | Raw : String × String → SendMsg
deriving DecidableEq, Repr

/-- The transport client seen from `Bot::listen_msg`: the three send methods
it calls, each fallible. -/
structure TwitchClient where
  say : String → String → Except String Unit
  reply_to_privmsg : String → PrivmsgMessage → Except String Unit
  privmsg : String → String → Except String Unit

/-- The transport call `Bot::listen_msg` makes for one queued message. -/
def send_one (client : TwitchClient) : SendMsg → Except String Unit
  | .Say (channel, message) => client.say channel message
  | .Reply (message, reply_to) => client.reply_to_privmsg message reply_to
  | .Raw (channel, message) => client.privmsg channel message

/-- The `.expect` panic message `Bot::listen_msg` uses for each variant. -/
def expect_msg : SendMsg → String
  | .Say _ => "Failed to say"
  | .Reply _ => "Failed to reply"
  | .Raw _ => "Failed to privmsg"

/-- Rust `Bot::listen_msg` from `bot.rs`, the single consumer of the outbound
message queue, run over the queue contents in arrival order.  Each send is
followed by the fixed 1000 ms sleep (time is not modelled).  A send failure
hits `.expect`, which panics the task: modelled by stopping and reporting the
panic message in the second component.  The first component lists the
messages actually sent. -/
def listen_msg (client : TwitchClient) : List SendMsg → List SendMsg × Option String
  | [] => ([], none)
  | msg :: rest =>
      match send_one client msg with
      | .ok _ =>
          let r := listen_msg client rest
          (msg :: r.1, r.2)
      | .error _ => ([], some (expect_msg msg))

/-- A transport client whose `say` fails and whose other sends succeed. -/
def clientSayFails : TwitchClient :=
  ⟨fun _ _ => .error "io error", fun _ _ => .ok (), fun _ _ => .ok ()⟩

/-! Theorems.  Claim theorems are named `cN_...` after the claim ids; the
`interp_...` lemmas are shared machinery for them. -/

/-- Helper: one registry call through a block-closing `\x7d` that is the last
character leaves exactly that one invocation in the trace, whatever the
registry answers. -/
theorem interp_close_last (reg : Reg) (args : List String) (a : String)
    (aa : List String) (resp : String) :
    (interpGo reg args (.inBlock a aa) resp ['\x7d']).1 = [(a, aa)] := by
  cases h : reg a aa <;> simp [interpGo, h]

/-- Helper for C4: if the interpreter run returns `ok`, the flat-grammar
walk of `unterminatedFrom` ends outside a block, i.e. every opened block was
closed. -/
theorem interp_ok_not_unterminated (reg : Reg) (args : List String) :
    ∀ (cs : List Char) (mode : Mode) (response : String) (r : Option String),
      (interpGo reg args mode response cs).2 = .ok r →
      unterminatedFrom mode.flag cs = false := by
  intro cs
  induction cs with
  | nil =>
      intro mode response r h
      cases mode with
      | top => rfl
      | inBlock a aa => simp [interpGo] at h
      | afterDollar a aa => simp [interpGo] at h
  | cons c cs ih =>
      intro mode response r h
      cases mode with
      | top =>
          by_cases hc : c = '\x7b'
          · simp only [interpGo, hc, if_pos] at h
            simp [unterminatedFrom, hc]
            exact ih (.inBlock "" []) response r h
          · simp only [interpGo, hc, if_neg, ite_false] at h
            have hbeq : (c == '\x7b') = false := beq_eq_false_iff_ne.mpr hc
            simp only [unterminatedFrom, hbeq]
            exact ih .top (response.push c) r h
      | inBlock a aa =>
          by_cases hc : c = '\x7d'
          · subst hc
            simp [interpGo] at h
            simp [unterminatedFrom]
            cases hr : reg a aa with
            | ok res =>
                rw [hr] at h
                simp at h
                exact ih .top (response ++ res.getD "") r h
            | error e =>
                rw [hr] at h
                simp at h
          · by_cases hc2 : c = '$'
            · simp only [interpGo, hc, hc2, if_neg, if_pos, ite_false] at h
              have hbne : (c != '\x7d') = true := bne_iff_ne.mpr hc
              simp only [unterminatedFrom, hbne]
              exact ih (.afterDollar a aa) response r h
            · by_cases hc3 : c = ' '
              · simp [interpGo, hc, hc2, hc3] at h
                have hbne : (c != '\x7d') = true := bne_iff_ne.mpr hc
                simp only [unterminatedFrom, hbne]
                exact ih (.inBlock a aa) response r h
              · simp [interpGo, hc, hc2, hc3] at h
                have hbne : (c != '\x7d') = true := bne_iff_ne.mpr hc
                simp only [unterminatedFrom, hbne]
                exact ih (.inBlock (a.push c) aa) response r h
      | afterDollar a aa =>
          by_cases hd : c.isDigit
          · have hne : c ≠ '\x7d' := by
              intro he
              rw [he] at hd
              simp at hd
            cases hg : args[c.toNat - 48]? with
            | some arg =>
                simp [interpGo, hd, hg] at h
                have hbne : (c != '\x7d') = true := bne_iff_ne.mpr hne
                simp only [unterminatedFrom, hbne]
                exact ih (.inBlock a (aa ++ [arg])) response r h
            | none => simp [interpGo, hd, hg] at h
          · by_cases hc : c = '$'
            · simp [interpGo, hd, hc] at h
              have hbne : (c != '\x7d') = true := by
                rw [bne_iff_ne, hc]
                decide
              simp only [unterminatedFrom, hbne]
              exact ih (.inBlock a (aa ++ [String.intercalate " " args])) response r h
            · simp [interpGo, hd, hc] at h

/-- Helper for C3: when the body scans cleanly to a block list, the
interpreter's registry-invocation trace is a prefix of that list (it can fall
short only by aborting on a registry error), and a run that returns `ok`
performed exactly that list of invocations, in order. -/
theorem interp_trace_of_scan (reg : Reg) (args : List String) :
    ∀ (cs : List Char) (mode : Mode) (response : String) (blocks : List Invocation),
      scanGo args mode cs = some blocks →
      (interpGo reg args mode response cs).1 <+: blocks ∧
        (∀ r, (interpGo reg args mode response cs).2 = .ok r →
          (interpGo reg args mode response cs).1 = blocks) := by
  intro cs
  induction cs with
  | nil =>
      intro mode response blocks h
      cases mode with
      | top =>
          simp [scanGo] at h
          subst h
          simp [interpGo]
      | inBlock a aa => simp [scanGo] at h
      | afterDollar a aa => simp [scanGo] at h
  | cons c cs ih =>
      intro mode response blocks h
      cases mode with
      | top =>
          by_cases hc : c = '\x7b'
          · simp only [scanGo, hc, if_pos] at h
            simp only [interpGo, hc, if_pos]
            exact ih (.inBlock "" []) response blocks h
          · simp only [scanGo, hc, if_neg, ite_false] at h
            simp only [interpGo, hc, if_neg, ite_false]
            exact ih .top (response.push c) blocks h
      | inBlock a aa =>
          by_cases hc : c = '\x7d'
          · subst hc
            simp only [scanGo, if_pos] at h
            rw [Option.map_eq_some'] at h
            obtain ⟨bl, hbl, hb⟩ := h
            subst hb
            cases hr : reg a aa with
            | ok res =>
                have hstep : interpGo reg args (.inBlock a aa) response ('\x7d' :: cs)
                    = ((a, aa) :: (interpGo reg args .top (response ++ res.getD "") cs).1,
                       (interpGo reg args .top (response ++ res.getD "") cs).2) := by
                  simp [interpGo, hr]
                obtain ⟨ih1, ih2⟩ := ih .top (response ++ res.getD "") bl hbl
                rw [hstep]
                constructor
                · obtain ⟨t, ht⟩ := ih1
                  exact ⟨t, by rw [List.cons_append, ht]⟩
                · intro r hok
                  simp only at hok ⊢
                  rw [ih2 r hok]
            | error e =>
                have hstep : interpGo reg args (.inBlock a aa) response ('\x7d' :: cs)
                    = ([(a, aa)], .error e) := by
                  simp [interpGo, hr]
                rw [hstep]
                constructor
                · exact ⟨bl, rfl⟩
                · intro r hok
                  simp at hok
          · by_cases hc2 : c = '$'
            · simp only [scanGo, hc, hc2, if_neg, if_pos, ite_false] at h
              simp only [interpGo, hc, hc2, if_neg, if_pos, ite_false]
              exact ih (.afterDollar a aa) response blocks h
            · by_cases hc3 : c = ' '
              · simp only [scanGo, hc, hc2, hc3, if_neg, if_pos, ite_false] at h
                simp only [interpGo, hc, hc2, hc3, if_neg, if_pos, ite_false]
                exact ih (.inBlock a aa) response blocks h
              · simp only [scanGo, hc, hc2, hc3, if_neg, ite_false] at h
                simp only [interpGo, hc, hc2, hc3, if_neg, ite_false]
                exact ih (.inBlock (a.push c) aa) response blocks h
      | afterDollar a aa =>
          by_cases hd : c.isDigit
          · cases hg : args[c.toNat - '0'.toNat]? with
            | some arg =>
                simp only [scanGo, hd, hg, if_pos] at h
                simp only [interpGo, hd, hg, if_pos]
                exact ih (.inBlock a (aa ++ [arg])) response blocks h
            | none =>
                have hg48 : args[c.toNat - 48]? = none := hg
                simp [scanGo, hd, hg48] at h
          · by_cases hc : c = '$'
            · simp only [scanGo, hd, hc, Bool.false_eq_true, if_neg, if_pos, ite_false] at h
              simp only [interpGo, hd, hc, Bool.false_eq_true, if_neg, if_pos, ite_false]
              exact ih (.inBlock a (aa ++ [String.intercalate " " args])) response blocks h
            · simp [scanGo, hd, hc] at h

/-- C1 counterexample: the claim is false on the code.  In the body
`\x7bname tok1 tok2\x7d` the interpreter does not split the block on
whitespace into an action name and literal argument tokens: it skips the
spaces and appends the unprefixed characters to the action name, invoking the
registry once with name `nametok1tok2` and an empty argument list, not with
name `name` and arguments `[tok1, tok2]`. -/
theorem c1_counterexample :
    (runCustom regNone "\x7bname tok1 tok2\x7d" []).1 = [("nametok1tok2", [])]
    ∧ [(("nametok1tok2" : String), ([] : List String))] ≠ [("name", ["tok1", "tok2"])] := by
  decide

/-- C1 amended: inside a `\x7b ... \x7d` block, whitespace is skipped rather
than separating tokens, every unprefixed character is appended to the action
name, and the argument list holds only `$`-variable expansions; so for every
registry and caller argument list the body `\x7bname tok1 tok2\x7d` performs
exactly one invocation, of action `nametok1tok2` with no arguments. -/
theorem c1_amended_unprefixed_concatenation (reg : Reg) (args : List String) :
    (runCustom reg "\x7bname tok1 tok2\x7d" args).1 = [("nametok1tok2", [])] := by
  have hdata : ("\x7bname tok1 tok2\x7d" : String).data
      = ['\x7b', 'n', 'a', 'm', 'e', ' ', 't', 'o', 'k', '1', ' ', 't', 'o', 'k', '2', '\x7d'] :=
    rfl
  rw [runCustom, hdata]
  simp [interpGo]
  split <;> rfl

/-- C2 counterexample: `$user` is not expanded to the caller identity; the
run of `\x7bname $user\x7d` fails with the "invalid variable" execution
error before any registry invocation (the trace is empty), rather than
succeeding. -/
theorem c2_counterexample :
    runCustom regNone "\x7bname $user\x7d" ["caller"]
      = ([], .error (.ExecutionError "invalid variable")) := by
  decide

/-- C2 amended: after `$` the interpreter accepts only a digit or another
`$`; any other character — such as the `u` of `$user` — aborts the run with
the "invalid variable" execution error and no registry invocation.  The
interpreter receives no caller identity at all. -/
theorem c2_amended_invalid_variable (reg : Reg) (args : List String) (action : String)
    (actionArgs : List String) (response : String) (c : Char) (cs : List Char)
    (hd : c.isDigit = false) (hc : c ≠ '$') :
    interpGo reg args (.afterDollar action actionArgs) response (c :: cs)
      = ([], .error (.ExecutionError "invalid variable")) := by
  simp [interpGo, hd, hc]

/-- Witness for the C2 amended theorem at `c := 'u'` (the `$user` case). -/
theorem c2_amended_witness :
    interpGo regNone ["caller"] (.afterDollar "name" []) "" ['u', 's', 'e', 'r', '\x7d']
      = ([], .error (.ExecutionError "invalid variable")) :=
  c2_amended_invalid_variable regNone ["caller"] "name" [] "" 'u' ['s', 'e', 'r', '\x7d']
    (by decide) (by decide)

/-- C3: for a well-formed body whose blocks scan to `blocks` (so the body
contains exactly `blocks.length` action blocks), the interpreter's invocation
trace is a prefix of `blocks` — it never invokes an action block not
literally present in the body — and a run that returns `ok` performs exactly
`blocks`: exactly `N` registry invocations, in left-to-right source order. -/
theorem c3_invocations_of_wellformed_body (reg : Reg) (args : List String)
    (body : String) (blocks : List Invocation)
    (h : scanBlocks body args = some blocks) :
    (runCustom reg body args).1 <+: blocks ∧
      (∀ r, (runCustom reg body args).2 = .ok r → (runCustom reg body args).1 = blocks) :=
  interp_trace_of_scan reg args body.data .top "" blocks h

/-- Witness for C3 on the two-block body `\x7ba\x7d \x7bb $0\x7d` with caller
argument `z`: the scan yields the two blocks and the successful run invokes
exactly those, in order. -/
theorem c3_witness :
    scanBlocks "\x7ba\x7d \x7bb $0\x7d" ["z"] = some [("a", []), ("b", ["z"])]
    ∧ (runCustom regNone "\x7ba\x7d \x7bb $0\x7d" ["z"]).1 = [("a", []), ("b", ["z"])] :=
  ⟨by decide,
   (c3_invocations_of_wellformed_body regNone ["z"] "\x7ba\x7d \x7bb $0\x7d"
      [("a", []), ("b", ["z"])] (by decide)).2 (some " ") (by decide)⟩

/-- C4: a body containing a `\x7b` with no matching `\x7d` (flat-grammar
matching) makes the whole run fail: the interpreter returns an execution
error value, so no text — partial or otherwise — is produced for that
invocation. -/
theorem c4_unterminated_block_fails (reg : Reg) (args : List String) (body : String)
    (h : hasUnterminatedBlock body = true) :
    ∃ e, (runCustom reg body args).2 = .error e := by
  cases hres : (runCustom reg body args).2 with
  | error e => exact ⟨e, rfl⟩
  | ok r =>
      exfalso
      have hterm := interp_ok_not_unterminated reg args body.data .top "" r hres
      rw [hasUnterminatedBlock] at h
      rw [show Mode.top.flag = false from rfl] at hterm
      rw [hterm] at h
      exact Bool.false_ne_true h

/-- Witness for C4 on the unterminated body `\x7bab`. -/
theorem c4_witness :
    hasUnterminatedBlock "\x7bab" = true
    ∧ ∃ e, (runCustom regNone "\x7bab" []).2 = .error e :=
  ⟨by decide, c4_unterminated_block_fails regNone [] "\x7bab" (by decide)⟩

/-- C5 counterexample: the claim is false on the code.  With a transport
whose `say` fails, the consumer handles the failing `Say` and stops:
`listen_msg` ends in the `.expect` panic "Failed to say" and the following
`Raw` message is never sent — a failed individual send does stop the
consumer loop instead of being logged and skipped. -/
theorem c5_counterexample :
    listen_msg clientSayFails [SendMsg.Say ("chat", "hello"), SendMsg.Raw ("chat", "news")]
      = ([], some "Failed to say")
    ∧ SendMsg.Raw ("chat", "news")
        ∉ (listen_msg clientSayFails
            [SendMsg.Say ("chat", "hello"), SendMsg.Raw ("chat", "news")]).1 := by
  decide

/-- C5 amended: a failed individual transport send is not logged-and-skipped:
it hits `.expect`, which panics the consumer task with the variant's message,
so the loop stops and no later queued message is drained or sent. -/
theorem c5_amended_failed_send_panics (client : TwitchClient) (msg : SendMsg)
    (rest : List SendMsg) (e : String) (h : send_one client msg = .error e) :
    listen_msg client (msg :: rest) = ([], some (expect_msg msg)) := by
  simp [listen_msg, h]

/-- Witness for the C5 amended theorem with a failing `say` transport. -/
theorem c5_amended_witness :
    listen_msg clientSayFails [SendMsg.Say ("c", "x"), SendMsg.Say ("c", "y")]
      = ([], some "Failed to say") :=
  c5_amended_failed_send_panics clientSayFails (SendMsg.Say ("c", "x"))
    [SendMsg.Say ("c", "y")] "io error" rfl

/-- C6: the permission gate.  `All` always passes; `Super` passes exactly for
the single hardcoded super-user identity, independent of badges; `Mods`
passes exactly when some badge is `broadcaster` or `moderator`; `Subs`
exactly when some badge is `broadcaster`, `moderator`, or `subscriber`.  In
particular a caller whose only badge is `subscriber` fails `Mods`, and one
whose badge is `moderator` passes it. -/
theorem c6_permission_gate (pm : PrivmsgMessage) :
    Bot.check_command_permissions pm .All = true
    ∧ (Bot.check_command_permissions pm .Super = true ↔ pm.sender_login = "boring_nick")
    ∧ (Bot.check_command_permissions pm .Mods = true ↔
        (∃ b ∈ pm.badges, b.name = "broadcaster") ∨ (∃ b ∈ pm.badges, b.name = "moderator"))
    ∧ (Bot.check_command_permissions pm .Subs = true ↔
        (∃ b ∈ pm.badges, b.name = "broadcaster") ∨ (∃ b ∈ pm.badges, b.name = "moderator")
          ∨ (∃ b ∈ pm.badges, b.name = "subscriber"))
    ∧ Bot.check_command_permissions ⟨pm.sender_login, [⟨"subscriber"⟩]⟩ .Mods = false
    ∧ Bot.check_command_permissions ⟨pm.sender_login, [⟨"moderator"⟩]⟩ .Mods = true := by
  refine ⟨rfl, ?_, ?_, ?_, ?_, ?_⟩
  · simp [Bot.check_command_permissions]
  · simp [Bot.check_command_permissions, List.any_eq_true]
  · simp [Bot.check_command_permissions, List.any_eq_true, or_assoc]
  · simp [Bot.check_command_permissions]
  · simp [Bot.check_command_permissions]

/-- C7: `addcmd` for a `(trigger, channel)` pair already present in the
store returns the non-error reply `command "<trigger>" already exists` and
leaves the store — in particular the stored body for that pair — unchanged. -/
theorem c7_addcmd_duplicate (reg : Reg) (store : Store) (trigger : String)
    (rest : List String) (channel : String)
    (h : commandExists store trigger channel = true) :
    run_command reg store .AddCmd (trigger :: rest) channel
      = (store, .ok (some ("command \"" ++ trigger ++ "\" already exists"))) := by
  simp [run_command, add_command, h]

/-- Witness for C7: duplicate `addcmd t` against a store holding `(t, ch)`. -/
theorem c7_witness :
    commandExists [⟨"t", "body", "ch", "all"⟩] "t" "ch" = true
    ∧ run_command regNone [⟨"t", "body", "ch", "all"⟩] .AddCmd ["t", "x"] "ch"
        = ([⟨"t", "body", "ch", "all"⟩],
           .ok (some ("command \"" ++ "t" ++ "\" already exists"))) :=
  ⟨by decide,
   c7_addcmd_duplicate regNone [⟨"t", "body", "ch", "all"⟩] "t" ["x"] "ch" (by decide)⟩

/-- C8: a `$<digit>` token resolves against the caller's positional
arguments, 0-based: when the digit's index is within the argument list, that
argument is appended to the block's argument list and scanning continues;
when it is past the end, the run stops with the returned value
`ExecutionError "missing argument"` — an error value, not a panic. -/
theorem c8_digit_variable (reg : Reg) (args : List String) (action : String)
    (actionArgs : List String) (response : String) (c : Char) (cs : List Char)
    (hd : c.isDigit = true) :
    (∀ arg, args[c.toNat - '0'.toNat]? = some arg →
        interpGo reg args (.afterDollar action actionArgs) response (c :: cs)
          = interpGo reg args (.inBlock action (actionArgs ++ [arg])) response cs)
    ∧ (args[c.toNat - '0'.toNat]? = none →
        interpGo reg args (.afterDollar action actionArgs) response (c :: cs)
          = ([], .error (.ExecutionError "missing argument"))) := by
  constructor
  · intro arg h
    have h48 : args[c.toNat - 48]? = some arg := h
    simp [interpGo, hd, h48]
  · intro h
    have h48 : args[c.toNat - 48]? = none := h
    simp [interpGo, hd, h48]

/-- Witness for C8: with call arguments `a b`, `$0` expands to `a`, and `$2`
(only indices 0 and 1 exist) yields the missing-argument error. -/
theorem c8_witness :
    interpGo regNone ["a", "b"] (.afterDollar "x" []) "" ['0', '\x7d']
      = interpGo regNone ["a", "b"] (.inBlock "x" ["a"]) "" ['\x7d']
    ∧ interpGo regNone ["a", "b"] (.afterDollar "x" []) "" ['2', '\x7d']
      = ([], .error (.ExecutionError "missing argument")) :=
  ⟨(c8_digit_variable regNone ["a", "b"] "x" [] "" '0' ['\x7d'] (by decide)).1 "a" (by decide),
   (c8_digit_variable regNone ["a", "b"] "x" [] "" '2' ['\x7d'] (by decide)).2 (by decide)⟩

/-- C9: every command added through `addcmd` is stored with the literal
permission string `all` — neither the caller's own level nor any requested
level is consulted — and `all` parses to `Permissions::All`, which the gate
accepts for every caller, so any user in the channel can invoke the
command. -/
theorem c9_addcmd_stores_permission_all (reg : Reg) (store : Store) (trigger : String)
    (rest : List String) (channel : String)
    (h : commandExists store trigger channel = false) :
    run_command reg store .AddCmd (trigger :: rest) channel
      = (⟨trigger, String.intercalate " " rest, channel, "all"⟩ :: store,
         .ok (some ("successfully added command \"" ++ trigger ++ "\"")))
    ∧ Permissions.from_string "all" = .ok .All
    ∧ ∀ pm : PrivmsgMessage, Bot.check_command_permissions pm .All = true :=
  ⟨by simp [run_command, add_command, h], rfl, fun _ => rfl⟩

/-- Witness for C9: adding `t hello world` to an empty store for channel
`ch` inserts the row with permission string `all`. -/
theorem c9_witness :
    run_command regNone [] .AddCmd ["t", "hello", "world"] "ch"
      = (⟨"t", String.intercalate " " ["hello", "world"], "ch", "all"⟩ :: [],
         .ok (some ("successfully added command \"" ++ "t" ++ "\""))) :=
  (c9_addcmd_stores_permission_all regNone [] "t" ["hello", "world"] "ch" (by decide)).1

/-- C10: a chat line exactly equal to the channel's configured trigger string
is not ignored — prefix parsing accepts it and returns the empty command
string — and the whitespace split of the empty string yields no tokens, so
the `split_first().unwrap()` of the handling task panics (`splitTriggerArgs`
is `none`) instead of producing an outcome. -/
theorem c10_bare_trigger_line_panics (pfx : String) :
    parse_command pfx pfx = some ""
    ∧ splitTriggerArgs "" = none
    ∧ routeMessage pfx pfx = some none := by
  have h1 : parse_command pfx pfx = some "" := by
    have h : pfx.data.isPrefixOf pfx.data = true := by
      simp [List.isPrefixOf_iff_prefix]
    simp only [parse_command, h, if_true]
    rw [List.drop_length]
  refine ⟨h1, by decide, ?_⟩
  rw [routeMessage, h1]
  rfl

end Foobot
